import Mathlib

/-
Shallow embedding of the DAVACL plugin of jsDAV (lib/DAVACL/plugin.js) and a
verification of the specification claims against it.

Notes on the source and on the embedding conventions used throughout:

* plugin.js is a strict-mode module ("use strict", line 8).  Its first half
  (through `principalSearch`) is JavaScript; from `updateProperties` (line 978)
  onward the file is still in PHP syntax (it is a half-finished port of the
  sabre/dav ACL plugin).  Routines from the PHP-syntax half (`httpACL`) are
  translated from that text, normalising PHP constructs (foreach, throw) to
  their evident meaning.

* Capability checks such as `node.hasFeature(jsDAVACL_iACL)`,
  `node.hasFeature(jsDAVACL_iPrincipal)` and `principal instanceof IPrincipal`
  refer to the capability interfaces of the repository (they live outside the
  provided sources).  Following the spec's capability model they are embedded
  as boolean capability fields on the node model.

* Callback-style results are embedded as `Except JsErr`: `callback(err)`
  becomes `.error e`, `callback(null, v)` becomes `.ok v`, and `callback()`
  (the "no value" case, i.e. JavaScript `undefined`) becomes `.ok none` when
  the value slot has an `Option` type.  A thrown JavaScript `TypeError` or
  `ReferenceError` is embedded as `.error .typeError` / `.error .referenceError`.

* JavaScript arrays used as stacks (push/pop at the end) are embedded as Lean
  lists whose head is the end of the array, so that push and pop act on the
  list head.
-/
/-- Runtime failures a routine of the plugin can surface: an error passed to a
callback by a collaborator (`nodeLookupFailed`), a thrown `TypeError`
(property access on `undefined`), a thrown `ReferenceError` (use of an
undeclared identifier), and fuel exhaustion of an embedded unbounded loop. -/
inductive JsErr where
  | nodeLookupFailed
  | typeError
  | referenceError
  | fuelExhausted
  deriving DecidableEq, Repr

/-- An access control entry `{principal, privilege, protected}`.  The source
key `protected` is a Lean keyword, so the field is named `isProtected`. -/
structure ACE where
  principal : String
  privilege : String
  isProtected : Bool
  deriving DecidableEq, Repr

/-- A node of a supported-privilege tree as produced by
`getDefaultSupportedPrivilegeSet` (plugin.js lines 370-419): a privilege name,
an `abstract` flag (a missing `"abstract"` key in the source objects is
`false`), and the list of aggregated child privileges. -/
inductive PrivilegeTree where
  | node (privilege : String) (abstract : Bool) (aggregates : List PrivilegeTree)

/-- The privilege name at the root of a privilege (sub)tree. -/
def PrivilegeTree.name : PrivilegeTree → String
  | .node n _ _ => n

/-- The default supported privilege structure, transcribed from
`getDefaultSupportedPrivilegeSet` (plugin.js lines 370-419). -/
def getDefaultSupportedPrivilegeSet : PrivilegeTree :=
  .node "{DAV:}all" true
    [ .node "{DAV:}read" false
        [ .node "{DAV:}read-acl" true []
        , .node "{DAV:}read-current-user-privilege-set" true [] ]
    , .node "{DAV:}write" false
        [ .node "{DAV:}write-acl" true []
        , .node "{DAV:}write-properties" true []
        , .node "{DAV:}write-content" true []
        , .node "{DAV:}bind" true []
        , .node "{DAV:}unbind" true []
        , .node "{DAV:}unlock" true [] ] ]

/-- One entry of the flat privilege table built by `getFPSTraverse`
(plugin.js lines 445-466): the privilege name, its abstract flag, the names of
its immediate aggregates and its `concrete` marker. -/
structure FlatPrivilege where
  privilege : String
  abstract : Bool
  aggregates : List String
  concrete : Option String
  deriving DecidableEq, Repr

/-- The flat privilege table: a JavaScript array indexed by privilege name,
embedded as an association list. -/
abbrev FlatTable := List (String × FlatPrivilege)

/-- Embedding of the assignment `flat[name] = v` on the array-as-map `flat`:
overwrite an existing binding, otherwise append a new one. -/
def setFlat : FlatTable → String → FlatPrivilege → FlatTable
  | [], k, v => [(k, v)]
  | (k₀, v₀) :: rest, k, v =>
      if k₀ = k then (k, v) :: rest else (k₀, v₀) :: setFlat rest k v

/-- Embedding of the read `flat[name]` (`none` is JavaScript `undefined`). -/
def lookupFlat (flat : FlatTable) (k : String) : Option FlatPrivilege :=
  (flat.find? (fun p => p.1 == k)).map (fun p => p.2)

mutual
/-- The table that the traversal body of `getFPSTraverse` (plugin.js lines
445-466) writes into its `flat` accumulator: record
`{privilege, abstract, aggregates (immediate child names), concrete}` for the
current node, then recurse into every aggregate with the node's `concrete`
marker (the source reads `(!!priv.abstract && priv.abstract) ? isConcrete :
priv.privilege`).  This definition captures only the array mutations; see
`getFlatPrivilegeSet` for what the source function actually delivers. -/
def getFPSTraverse : PrivilegeTree → Option String → FlatTable → FlatTable
  | .node name abs aggs, isConcrete, flat =>
      let concrete : Option String := if abs then isConcrete else some name
      let myPriv : FlatPrivilege :=
        { privilege := name
        , abstract := abs
        , aggregates := aggs.map PrivilegeTree.name
        , concrete := concrete }
      getFPSTraverseList aggs concrete (setFlat flat name myPriv)
/-- Folds `getFPSTraverse` over a list of aggregate subtrees, in order
(the second `priv.aggregates.forEach` of the source). -/
def getFPSTraverseList : List PrivilegeTree → Option String → FlatTable → FlatTable
  | [], _, flat => flat
  | t :: ts, c, flat => getFPSTraverseList ts c (getFPSTraverse t c flat)
end

/-- `getFlatPrivilegeSet` (plugin.js lines 435-470).  The module is in strict
mode (line 8) and the helper `getFPSTraverse` assigns to the undeclared
identifier `myPriv` (line 446: `myPriv = {...}` with no `var`), so its very
first call throws a ReferenceError before any table entry is recorded.
Independently of that, `getFPSTraverse` has no return statement, and the outer
`var flat = []` (line 442) is never touched (the recursion populates the fresh
array literal passed at line 468), so even without the throw the callback at
line 468 would receive `undefined` rather than the populated table.  The
function therefore never delivers a flat privilege table. -/
def getFlatPrivilegeSet (_tree : PrivilegeTree) : Except JsErr FlatTable :=
  .error .referenceError

/-- The node model: the capabilities and accessor results of a DAV node that
the plugin consumes.  `isACL` embeds `hasFeature(jsDAVACL_iACL)`,
`isPrincipal` embeds `hasFeature(jsDAVACL_iPrincipal)` / `instanceof
IPrincipal`, `acl` the node's own stored ACL (`node.getACL`), `owner` the
declared owner (`node.getOwner`, `none` for null), and
`supportedPrivilegeSet` the resource-specific privilege tree if the node
supplies one. -/
structure NodeModel where
  isACL : Bool
  isPrincipal : Bool
  acl : List ACE
  owner : Option String
  supportedPrivilegeSet : Option PrivilegeTree

/-- The synthetic protected entry appended for one configured administrator
principal (plugin.js lines 504-510). -/
def adminAce (adminPrincipal : String) : ACE :=
  { principal := adminPrincipal, privilege := "{DAV:}all", isProtected := true }

/-- `getACL` (plugin.js lines 482-514): `none` if the node has no ACL support,
otherwise the node's stored ACL with one synthetic protected `{DAV:}all` entry
appended per configured administrator principal. -/
def getACL (adminPrincipals : List String) (node : NodeModel) : Option (List ACE) :=
  if node.isACL then some (node.acl ++ adminPrincipals.map adminAce) else none

/-- `getSupportedPrivilegeSet` (plugin.js lines 337-362): the node's own tree
if it supplies one, else the default tree. -/
def getSupportedPrivilegeSet (node : NodeModel) : PrivilegeTree :=
  node.supportedPrivilegeSet.getD getDefaultSupportedPrivilegeSet

/-- The ACE-matching decision of `getCurrentUserPrivilegeSet` (the
`acl.forEach` switch, plugin.js lines 554-579): an `{DAV:}owner` entry matches
when the node's declared owner exists and is among the caller's principals;
`{DAV:}all` and `{DAV:}authenticated` always match; `{DAV:}unauthenticated`
never matches; any other entry matches when its literal principal identifier
is among the caller's principals. -/
def aceMatches (principals : List String) (owner : Option String) (ace : ACE) : Bool :=
  if ace.principal = "{DAV:}owner" then
    match owner with
    | some o => principals.contains o
    | none => false
  else if ace.principal = "{DAV:}all" then true
  else if ace.principal = "{DAV:}authenticated" then true
  else if ace.principal = "{DAV:}unauthenticated" then false
  else principals.contains ace.principal

/-- The `collected` list of matching ACEs built by the `acl.forEach` loop of
`getCurrentUserPrivilegeSet` (plugin.js lines 554-579), in ACL order. -/
def collectMatching (principals : List String) (owner : Option String)
    (acl : List ACE) : List ACE :=
  acl.filter (aceMatches principals owner)

/-- Modelled from the spec: `Util.makeUnique` (shared/util.js, not among the
provided sources) deduplicates a list; the spec only requires the result to be
the deduplicated set of the input (§3, EffectivePrivilegeSet). -/
def makeUnique : List String → List String
  | [] => []
  | x :: xs =>
      let r := makeUnique xs
      if x ∈ r then r else x :: r

/-- The aggregate-expansion `while` loop of `getCurrentUserPrivilegeSet`
(plugin.js lines 586-598), fuel-bounded.  The `collected` stack is embedded
with the array end first; each element carries only its `privilege` field
(`none` for a JavaScript `undefined` pushed by `collected.push(flat[subPriv])`
when `subPriv` has no table entry).  Popping `undefined` or looking up a
privilege with no table entry throws a TypeError, as in the source.  In the
source the loop's termination relies on the acyclicity of the privilege
catalog; the fuel bounds the embedded loop instead. -/
def expandAggregates (flat : FlatTable) :
    Nat → List (Option String) → List String → Except JsErr (List String)
  | _, [], collected2 => .ok (makeUnique collected2)
  | 0, _ :: _, _ => .error .fuelExhausted
  | _ + 1, none :: _, _ => .error .typeError
  | fuel + 1, some p :: rest, collected2 =>
      match lookupFlat flat p with
      | none => .error .typeError
      | some fp =>
          expandAggregates flat fuel
            ((fp.aggregates.reverse.map
                (fun s => (lookupFlat flat s).map (fun e => e.privilege))) ++ rest)
            (collected2 ++ p :: fp.aggregates)

/-- `getCurrentUserPrivilegeSet` (plugin.js lines 527-603) for a resolved node
and an already-resolved caller principal set: load the ACL (admin overlay
included), collect the matching ACEs, then expand their privileges through the
flat catalog.  `.ok none` is the `callback()` taken when the node has no ACL
support.  Because `getFlatPrivilegeSet` always throws (see its comment), the
expansion branch is unreachable and the function propagates that error for
every ACL-capable node. -/
def getCurrentUserPrivilegeSet (adminPrincipals : List String) (node : NodeModel)
    (principals : List String) : Except JsErr (Option (List String)) :=
  match getACL adminPrincipals node with
  | none => .ok none
  | some acl =>
      let collected := collectMatching principals node.owner acl
      match getFlatPrivilegeSet (getSupportedPrivilegeSet node) with
      | .error e => .error e
      | .ok flat =>
          let fuel := (flat.length + collected.length + 1) * (flat.length + 1)
          match expandAggregates flat fuel
              ((collected.map (fun a => some a.privilege)).reverse) [] with
          | .error e => .error e
          | .ok set => .ok (some set)

/-- Recursion constant `R_PARENT` (plugin.js line 33). -/
def R_PARENT : Nat := 1

/-- Recursion constant `R_RECURSIVE` (plugin.js line 40). -/
def R_RECURSIVE : Nat := 2

/-- Recursion constant `R_RECURSIVEPARENTS` (plugin.js line 47). -/
def R_RECURSIVEPARENTS : Nat := 3

/-- Outcome of `checkPrivileges`: `callback(null, true)`;
`callback(new Exc.NeedPrivileges(uri, privileges), false)`; or a propagated
error / thrown exception. -/
inductive CheckResult where
  | granted
  | needPrivileges (uri : String) (privileges : List String)
  | jsError (e : JsErr)
  deriving DecidableEq, Repr

/-- `checkPrivileges` (plugin.js lines 184-211), taking the result of
`this.getCurrentUserPrivilegeSet(uri, ...)` as the `cups` argument.  A single
required privilege passed as a string in the source is embedded as a singleton
list (the source normalises with `Array.isArray`).  As in the source: a
collaborator error is propagated; when the privilege set `acl` is present
(every array, even empty, is truthy) the `allowAccessToNodesWithoutACL` flag
alone decides; when it is absent (`undefined`, the no-ACL-support case) the
code falls through to `privileges.filter(priv => acl.indexOf(priv) === -1)`,
which throws a TypeError on `undefined`.  The `recursion` argument is
defaulted (`recursion || R_PARENT`, line 188) and never used again. -/
def checkPrivileges (allowAccessToNodesWithoutACL : Bool) (uri : String)
    (privileges : List String) (recursion : Option Nat)
    (cups : Except JsErr (Option (List String))) : CheckResult :=
  let _recursion := recursion.getD R_PARENT
  match cups with
  | .error e => .jsError e
  | .ok (some _acl) =>
      if allowAccessToNodesWithoutACL then .granted
      else .needPrivileges uri privileges
  | .ok none => .jsError .typeError

/-- The `checkNext` work loop of `getPrincipalMembership` (plugin.js lines
284-310) with an empty membership cache.  The queue (`check`, shifted from the
front) and the accumulator (`principals`) are the two list arguments.  As in
the source: an exhausted queue or a falsy dequeued principal (the empty
string) ends the traversal with the accumulator (`checkedAll()`); a failed
node lookup, or a failed `getGroupMembership`, aborts with the error
(`checkedAll(err)`, both embedded as the lookup returning `.error`); a node
without the principal capability is skipped; and for a principal node with a
non-empty membership list the first `memberships.forEach` iteration evaluates
`pricipals.indexOf(groupMember)` (line 299) — `pricipals` is an undeclared
identifier (the accumulator is named `principals`) — and throws a
ReferenceError, so nothing is ever enqueued and no deduplication happens.  A
principal node whose membership list is empty runs zero iterations and is
skipped. -/
def membershipCheckNext (lookup : String → Except JsErr (Option (List String))) :
    List String → List String → Except JsErr (List String)
  | [], principals => .ok principals
  | principal :: check, principals =>
      if principal = "" then .ok principals
      else
        match lookup principal with
        | .error e => .error e
        | .ok none => membershipCheckNext lookup check principals
        | .ok (some []) => membershipCheckNext lookup check principals
        | .ok (some (_ :: _)) => .error .referenceError

/-- `getPrincipalMembership` (plugin.js lines 275-323) on a cold cache: run
the work loop with the queue seeded with the principal and an empty
accumulator.  `lookup` maps a principal path to `.error e` (node lookup or
membership fetch failed), `.ok none` (the node is not principal-capable) or
`.ok (some ms)` (a principal node with direct membership list `ms`). -/
def getPrincipalMembership (lookup : String → Except JsErr (Option (List String)))
    (mainPrincipal : String) : Except JsErr (List String) :=
  membershipCheckNext lookup [mainPrincipal] []

/-- A two-principal membership cycle: principal a lists b as a group it
belongs to, and b lists a. -/
def cycleLookup : String → Except JsErr (Option (List String)) := fun p =>
  if p = "principals/a" then .ok (some ["principals/b"])
  else if p = "principals/b" then .ok (some ["principals/a"])
  else .ok none

/-- The resource of the spec's worked example (§8): `/doc.txt` with ACL
`[{principal: principals/alice, privilege: write}, {principal: authenticated,
privilege: read, protected}]`, ACL support, no resource-specific privilege
tree. -/
def docNode : NodeModel :=
  { isACL := true
  , isPrincipal := false
  , acl := [ { principal := "principals/alice", privilege := "{DAV:}write"
             , isProtected := false }
           , { principal := "{DAV:}authenticated", privilege := "{DAV:}read"
             , isProtected := true } ]
  , owner := none
  , supportedPrivilegeSet := none }

/-- What the `beforeMethod` interceptor (plugin.js lines 731-781) does after
the node lookup: either continue the pipeline with no privilege check
(`e.next()` with no `checkPrivileges` call) or invoke
`checkPrivileges(uri, privileges, recursion, e.next)`.  A single required
privilege passed as a string in the source is written as a singleton list
(see `checkPrivileges`). -/
inductive BeforeMethodOutcome where
  | next
  | check (uri : String) (privileges : List String) (recursion : Option Nat)
  deriving DecidableEq, Repr

/-- `beforeMethod` (plugin.js lines 731-781): resolve the request URI to a
node; on ANY lookup error continue the pipeline unconditionally (lines
734-737: the comment says "do not yield errors: If the node doesn't exists,
none of these checks apply", but every error — not only not-found — takes
this path); otherwise dispatch on the HTTP method to the per-method privilege
check, with unknown methods continuing unchecked. -/
def beforeMethod (nodeLookup : Except JsErr NodeModel) (method : String)
    (uri : String) : BeforeMethodOutcome :=
  match nodeLookup with
  | .error _ => .next
  | .ok _ =>
      if method == "GET" || method == "HEAD" || method == "OPTIONS" then
        .check uri ["{DAV:}read"] none
      else if method == "PUT" || method == "LOCK" || method == "UNLOCK" then
        .check uri ["{DAV:}write-content"] none
      else if method == "PROPPATCH" then
        .check uri ["{DAV:}write-properties"] none
      else if method == "ACL" then
        .check uri ["{DAV:}write-acl"] none
      else if method == "COPY" || method == "MOVE" then
        .check uri ["{DAV:}read"] (some R_RECURSIVE)
      else .next

/-- The error kinds thrown by the `httpACL` routine (plugin.js lines
1060-1129; the source class for the abstract-privilege violation is named
`NoAbstract`, the spec calls the same error kind `NoAbstractPrivilege`). -/
inductive AclError where
  | methodNotAllowed
  | aceConflict
  | notSupportedPrivilege (privilege : String)
  | noAbstract (privilege : String)
  | notRecognizedPrincipal (principal : String)
  deriving DecidableEq, Repr

/-- The protected-entry preservation check of `httpACL` (lines 1086-1103):
for every old entry marked protected there must be a requested entry with the
same privilege, the same principal, and a truthy protected flag; entries not
marked protected are skipped. -/
def protectedPreserved (oldAcl newAcl : List ACE) : Bool :=
  oldAcl.all fun oldAce =>
    !oldAce.isProtected ||
      newAcl.any fun newAce =>
        newAce.privilege == oldAce.privilege &&
        newAce.principal == oldAce.principal &&
        newAce.isProtected

/-- The per-entry validation of the `foreach(newAcl as newAce)` loop of
`httpACL` (lines 1105-1126), in source order: the privilege must have an
entry in the flat catalog (else NotSupportedPrivilege), must not be abstract
(else NoAbstract), and the principal must resolve — `none` embeds the
NotFound of `tree.getNodeForPath` — to a principal-capable node (else
NotRecognizedPrincipal in either case).  `none` means the entry passes. -/
def aceCheck (supportedPrivileges : FlatTable)
    (resolvePrincipal : String → Option NodeModel) (ace : ACE) : Option AclError :=
  match lookupFlat supportedPrivileges ace.privilege with
  | none => some (.notSupportedPrivilege ace.privilege)
  | some fp =>
      if fp.abstract then some (.noAbstract ace.privilege)
      else
        match resolvePrincipal ace.principal with
        | none => some (.notRecognizedPrincipal ace.principal)
        | some principalNode =>
            if principalNode.isPrincipal then none
            else some (.notRecognizedPrincipal ace.principal)

/-- Runs `aceCheck` over the requested entries in order; the first failure is
the error the operation throws. -/
def checkAces (supportedPrivileges : FlatTable)
    (resolvePrincipal : String → Option NodeModel) : List ACE → Option AclError
  | [] => none
  | ace :: rest =>
      match aceCheck supportedPrivileges resolvePrincipal ace with
      | some e => some e
      | none => checkAces supportedPrivileges resolvePrincipal rest

/-- `httpACL` (plugin.js lines 1060-1129, still in PHP syntax — see the file
header).  The request body is taken already parsed and principal-normalised
(`calculateUri`) as `newAcl`; the node the request URI resolved to is `node`;
`supportedPrivileges` stands for the flat catalog the routine reads at line
1082 (`this.getFlatPrivilegeSet(node)` — note that the JavaScript port of
that function never actually delivers a table, see `getFlatPrivilegeSet`);
`resolvePrincipal` embeds `this.server.tree.getNodeForPath` on principal
paths.  Order as in the source: reject nodes without ACL support
(MethodNotAllowed), check preservation of the protected entries of the old
ACL (getACL output, admin overlay included; AceConflict), validate every
requested entry, and only then replace the node's stored ACL
(`node.setACL(newAcl)`), which is the routine's only mutation. -/
def httpACL (adminPrincipals : List String) (supportedPrivileges : FlatTable)
    (resolvePrincipal : String → Option NodeModel) (node : NodeModel)
    (newAcl : List ACE) : Except AclError NodeModel :=
  if !node.isACL then .error .methodNotAllowed
  else
    let oldAcl := node.acl ++ adminPrincipals.map adminAce
    if !protectedPreserved oldAcl newAcl then .error .aceConflict
    else
      match checkAces supportedPrivileges resolvePrincipal newAcl with
      | some e => .error e
      | none => .ok { node with acl := newAcl }

/-- The node's stored ACL after an `httpACL` request: the requested list if
the request succeeded, the previous ACL otherwise — `node.setACL` at line
1127 is the only mutation of the routine and runs after every check. -/
def aclAfterHttpACL (adminPrincipals : List String) (supportedPrivileges : FlatTable)
    (resolvePrincipal : String → Option NodeModel) (node : NodeModel)
    (newAcl : List ACE) : List ACE :=
  match httpACL adminPrincipals supportedPrivileges resolvePrincipal node newAcl with
  | .ok newNode => newNode.acl
  | .error _ => node.acl

/-- A resource whose stored ACL holds one protected write-acl entry for
alice. -/
def nodeC8 : NodeModel :=
  { isACL := true
  , isPrincipal := false
  , acl := [ { principal := "principals/alice", privilege := "{DAV:}write-acl"
             , isProtected := true } ]
  , owner := none
  , supportedPrivilegeSet := none }

/-- Key-consistency of a flat table: the entry stored under key `k` names
privilege `k`.  Tables built by `getFPSTraverse` have this by construction
(the source stores `myPriv` under `priv.privilege`, which is also
`myPriv.privilege`); `defaultFlatTable_consistent` checks it for the default
tree. -/
def FlatTableConsistent (flat : FlatTable) : Prop :=
  ∀ k fp, lookupFlat flat k = some fp → fp.privilege = k

/-- The table `getFPSTraverse` builds for the default privilege tree (and
which `getFlatPrivilegeSet` fails to deliver). -/
def defaultFlatTable : FlatTable :=
  getFPSTraverse getDefaultSupportedPrivilegeSet none []

/-- C1: the documented policy says the `allowAccessToNodesWithoutACL` flag
governs resources without ACL support (true grants, false denies with
NeedPrivileges) and has no effect on resources with ACL support.  The code
inverts the branch: on a no-ACL resource (privilege set absent) it throws a
TypeError whatever the flag says, and on an ACL-capable resource (privilege
set present) the flag alone decides the outcome. -/
theorem c1_no_acl_policy_inverted :
    checkPrivileges true "/file" ["{DAV:}read"] none (.ok none)
      = .jsError .typeError
    ∧ checkPrivileges false "/file" ["{DAV:}read"] none (.ok none)
      = .jsError .typeError
    ∧ checkPrivileges true "/file" ["{DAV:}read"] none (.ok (some []))
      = .granted
    ∧ checkPrivileges false "/file" ["{DAV:}read"] none (.ok (some []))
      = .needPrivileges "/file" ["{DAV:}read"] := by
  refine ⟨rfl, rfl, rfl, rfl⟩

/-- C2: the claim says that on an ACL-supporting resource `checkPrivileges`
succeeds iff required minus effective is empty, and otherwise reports exactly
the difference.  The code never computes the difference on that path: with the
default flag `true` it grants although `{DAV:}write` is missing from the
effective set `[{DAV:}read]`, and with the flag `false` it denies although the
difference is empty, reporting the full required list. -/
theorem c2_missing_privileges_not_computed :
    checkPrivileges true "/file" ["{DAV:}write"] none (.ok (some ["{DAV:}read"]))
      = .granted
    ∧ checkPrivileges false "/file" ["{DAV:}write-acl"] none
        (.ok (some ["{DAV:}write-acl"]))
      = .needPrivileges "/file" ["{DAV:}write-acl"] := by
  refine ⟨rfl, rfl⟩

/-- C5: the claim says the recursion-mode argument selects the scope of the
check and is never accepted-but-ignored.  In the code the argument is
defaulted at line 188 and never read afterwards: the outcome of
`checkPrivileges` is identical for every recursion mode (target-only,
recursive, recursive-parents, or absent), for all inputs. -/
theorem c5_recursion_mode_ignored :
    ∀ (allow : Bool) (uri : String) (privileges : List String)
      (cups : Except JsErr (Option (List String))) (r r' : Option Nat),
      checkPrivileges allow uri privileges r cups
        = checkPrivileges allow uri privileges r' cups := by
  intro allow uri privileges cups r r'
  rfl

/-- C3: the claim says membership resolution terminates on the cycle
a ↔ b and returns the closure of a, containing b exactly once and not
containing a.  The code instead throws a ReferenceError on the first
membership edge it processes — the visited-set test at line 299 reads the
undeclared identifier `pricipals` — so the resolution for a fails rather than
returning `["principals/b"]`. -/
theorem c3_membership_resolution_crashes :
    getPrincipalMembership cycleLookup "principals/a" = .error .referenceError
    ∧ getPrincipalMembership cycleLookup "principals/a" ≠ .ok ["principals/b"] := by
  refine ⟨rfl, ?_⟩
  intro h
  rw [show getPrincipalMembership cycleLookup "principals/a" = .error .referenceError
        from rfl] at h
  exact Except.noConfusion h

/-- C4: the claim says flattening is total and yields a table in which every
privilege name of the tree appears exactly once, with the aggregates being
exactly the immediate children.  In the code `getFlatPrivilegeSet` never
yields a table at all — every call fails with the ReferenceError raised by the
`myPriv` assignment (and its traversal result would in any case be discarded
by the missing return statement).  The table the traversal would have built is
computed by `getFPSTraverse`; at the default privilege tree it does list every
one of the eleven privilege names exactly once and records the immediate
children as aggregates (witnessed here for `{DAV:}write`), which is exactly
what the claim demands and what the function fails to deliver. -/
theorem c4_flatten_never_returns_table :
    (∀ tree : PrivilegeTree, getFlatPrivilegeSet tree = .error .referenceError)
    ∧ (getFPSTraverse getDefaultSupportedPrivilegeSet none []).map Prod.fst
        = [ "{DAV:}all", "{DAV:}read", "{DAV:}read-acl",
            "{DAV:}read-current-user-privilege-set", "{DAV:}write",
            "{DAV:}write-acl", "{DAV:}write-properties", "{DAV:}write-content",
            "{DAV:}bind", "{DAV:}unbind", "{DAV:}unlock" ]
    ∧ lookupFlat (getFPSTraverse getDefaultSupportedPrivilegeSet none []) "{DAV:}write"
        = some { privilege := "{DAV:}write"
               , abstract := false
               , aggregates := [ "{DAV:}write-acl", "{DAV:}write-properties"
                               , "{DAV:}write-content", "{DAV:}bind"
                               , "{DAV:}unbind", "{DAV:}unlock" ]
               , concrete := some "{DAV:}write" } := by
  refine ⟨fun _ => rfl, rfl, rfl⟩

/-- C6: the claim says the set returned by `getCurrentUserPrivilegeSet` is
aggregation-closed and deduplicated.  On the spec's own example (caller alice,
expected effective set of ten privileges) the function returns no set at all:
it propagates the ReferenceError thrown inside `getFlatPrivilegeSet` before
the aggregate-expansion loop can run, as it does for every ACL-capable
resource. -/
theorem c6_effective_set_never_returned :
    getCurrentUserPrivilegeSet [] docNode ["principals/alice"]
      = .error .referenceError := rfl

/-- C7: the ACE-matching rules of `getCurrentUserPrivilegeSet`: an
`{DAV:}owner` entry matches exactly when the declared owner exists and is one
of the caller's principals; `{DAV:}all` and `{DAV:}authenticated` entries
always match; an `{DAV:}unauthenticated` entry is never collected into any
effective-set computation; and any other entry matches exactly when its
literal principal identifier is one of the caller's principals. -/
theorem c7_ace_matching_rules :
    (∀ (ps : List String) (ow : Option String) (priv : String) (prot : Bool),
      aceMatches ps ow { principal := "{DAV:}owner", privilege := priv, isProtected := prot } = true
        ↔ ∃ o, ow = some o ∧ o ∈ ps)
    ∧ (∀ (ps : List String) (ow : Option String) (priv : String) (prot : Bool),
      aceMatches ps ow { principal := "{DAV:}all", privilege := priv, isProtected := prot } = true)
    ∧ (∀ (ps : List String) (ow : Option String) (priv : String) (prot : Bool),
      aceMatches ps ow { principal := "{DAV:}authenticated", privilege := priv, isProtected := prot } = true)
    ∧ (∀ (ps : List String) (ow : Option String) (priv : String) (prot : Bool)
        (acl : List ACE),
      { principal := "{DAV:}unauthenticated", privilege := priv, isProtected := prot : ACE }
        ∉ collectMatching ps ow acl)
    ∧ (∀ (ps : List String) (ow : Option String) (a : ACE),
      a.principal ≠ "{DAV:}owner" → a.principal ≠ "{DAV:}all" →
      a.principal ≠ "{DAV:}authenticated" → a.principal ≠ "{DAV:}unauthenticated" →
      (aceMatches ps ow a = true ↔ a.principal ∈ ps)) := by
  refine ⟨?_, ?_, ?_, ?_, ?_⟩
  · intro ps ow priv prot
    cases ow with
    | none => simp [aceMatches]
    | some o => simp [aceMatches]
  · intro ps ow priv prot
    simp [aceMatches]
  · intro ps ow priv prot
    simp [aceMatches]
  · intro ps ow priv prot acl
    simp [collectMatching, List.mem_filter, aceMatches]
  · intro ps ow a h₁ h₂ h₃ h₄
    simp [aceMatches, h₁, h₂, h₃, h₄]

/-- Witness for C7: the literal-principal rule at a concrete input — an entry
for `principals/alice` matches a caller whose principal set is
`[principals/alice]`. -/
theorem c7_ace_matching_rules_witness :
    aceMatches ["principals/alice"] none
      { principal := "principals/alice", privilege := "{DAV:}read", isProtected := false } = true :=
  (c7_ace_matching_rules.2.2.2.2 ["principals/alice"] none
      { principal := "principals/alice", privilege := "{DAV:}read", isProtected := false }
      (by decide) (by decide) (by decide) (by decide)).mpr (by decide)

/-- Any entry of `checkAces` passing means every entry passed. -/
theorem checkAces_eq_none {supportedPrivileges : FlatTable}
    {resolvePrincipal : String → Option NodeModel} :
    ∀ {l : List ACE}, checkAces supportedPrivileges resolvePrincipal l = none →
      ∀ ace ∈ l, aceCheck supportedPrivileges resolvePrincipal ace = none := by
  intro l
  induction l with
  | nil => intro _ ace h; exact absurd h (List.not_mem_nil ace)
  | cons a rest ih =>
      intro h ace hmem
      rw [checkAces] at h
      cases hc : aceCheck supportedPrivileges resolvePrincipal a with
      | some e => rw [hc] at h; exact Option.noConfusion h
      | none =>
          rw [hc] at h
          rcases List.mem_cons.mp hmem with rfl | hrest
          · exact hc
          · exact ih h ace hrest

/-- C8: if the prior ACL (the node's stored ACL with the admin overlay)
contains a protected entry and the requested list holds no identical
`{principal, privilege, protected}` triple, the ACL request fails with
AceConflict and the stored ACL is unchanged; and, in general, every failure
of `httpACL` leaves the stored ACL unchanged, because the single `setACL`
mutation runs only after all validation has passed. -/
theorem c8_protected_ace_preserved :
    (∀ (adminPrincipals : List String) (supportedPrivileges : FlatTable)
       (resolvePrincipal : String → Option NodeModel) (node : NodeModel)
       (newAcl : List ACE) (oldAce : ACE),
      node.isACL = true →
      oldAce ∈ node.acl ++ adminPrincipals.map adminAce →
      oldAce.isProtected = true →
      (∀ newAce ∈ newAcl,
        ¬(newAce.privilege = oldAce.privilege ∧ newAce.principal = oldAce.principal
            ∧ newAce.isProtected = true)) →
      httpACL adminPrincipals supportedPrivileges resolvePrincipal node newAcl
          = .error .aceConflict
        ∧ aclAfterHttpACL adminPrincipals supportedPrivileges resolvePrincipal node newAcl
          = node.acl)
    ∧ (∀ (adminPrincipals : List String) (supportedPrivileges : FlatTable)
         (resolvePrincipal : String → Option NodeModel) (node : NodeModel)
         (newAcl : List ACE) (e : AclError),
        httpACL adminPrincipals supportedPrivileges resolvePrincipal node newAcl
          = .error e →
        aclAfterHttpACL adminPrincipals supportedPrivileges resolvePrincipal node newAcl
          = node.acl) := by
  constructor
  · intro adminPrincipals supportedPrivileges resolvePrincipal node newAcl oldAce
      hACL hmem hprot hmiss
    have hfalse :
        protectedPreserved (node.acl ++ adminPrincipals.map adminAce) newAcl = false := by
      apply Bool.eq_false_iff.mpr
      intro hall
      rw [protectedPreserved, List.all_eq_true] at hall
      have hthis := hall oldAce hmem
      simp only [hprot, Bool.not_true, Bool.false_or, List.any_eq_true,
        Bool.and_eq_true, beq_iff_eq] at hthis
      obtain ⟨na, hna, ⟨h₁, h₂⟩, h₃⟩ := hthis
      exact hmiss na hna ⟨h₁, h₂, h₃⟩
    have hrun :
        httpACL adminPrincipals supportedPrivileges resolvePrincipal node newAcl
          = .error .aceConflict := by
      simp [httpACL, hACL, hfalse]
    exact ⟨hrun, by simp [aclAfterHttpACL, hrun]⟩
  · intro adminPrincipals supportedPrivileges resolvePrincipal node newAcl e h
    simp [aclAfterHttpACL, h]

/-- Witness for C8: replacing the ACL of `nodeC8` with the empty list (which
omits the protected triple) fails with AceConflict and leaves the stored ACL
as it was. -/
theorem c8_protected_ace_preserved_witness :
    httpACL [] [] (fun _ => none) nodeC8 [] = .error .aceConflict
    ∧ aclAfterHttpACL [] [] (fun _ => none) nodeC8 [] = nodeC8.acl :=
  c8_protected_ace_preserved.1 [] [] (fun _ => none) nodeC8 []
    { principal := "principals/alice", privilege := "{DAV:}write-acl"
    , isProtected := true }
    rfl (by simp [nodeC8]) rfl (by simp)

/-- C9: per requested entry, in the order the source checks them: an unknown
privilege yields NotSupportedPrivilege; a known but abstract privilege yields
NoAbstract (the spec's NoAbstractPrivilege); a known concrete privilege whose
principal does not resolve, or resolves to a node that is not
principal-capable, yields NotRecognizedPrincipal; and the stored ACL is
replaced (the request succeeds) only when every requested entry passes all
the checks. -/
theorem c9_ace_validation :
    (∀ (supportedPrivileges : FlatTable)
       (resolvePrincipal : String → Option NodeModel) (ace : ACE),
      lookupFlat supportedPrivileges ace.privilege = none →
      aceCheck supportedPrivileges resolvePrincipal ace
        = some (.notSupportedPrivilege ace.privilege))
    ∧ (∀ (supportedPrivileges : FlatTable)
         (resolvePrincipal : String → Option NodeModel) (ace : ACE)
         (fp : FlatPrivilege),
      lookupFlat supportedPrivileges ace.privilege = some fp →
      fp.abstract = true →
      aceCheck supportedPrivileges resolvePrincipal ace
        = some (.noAbstract ace.privilege))
    ∧ (∀ (supportedPrivileges : FlatTable)
         (resolvePrincipal : String → Option NodeModel) (ace : ACE)
         (fp : FlatPrivilege),
      lookupFlat supportedPrivileges ace.privilege = some fp →
      fp.abstract = false →
      (resolvePrincipal ace.principal = none
        ∨ ∃ principalNode, resolvePrincipal ace.principal = some principalNode
            ∧ principalNode.isPrincipal = false) →
      aceCheck supportedPrivileges resolvePrincipal ace
        = some (.notRecognizedPrincipal ace.principal))
    ∧ (∀ (adminPrincipals : List String) (supportedPrivileges : FlatTable)
         (resolvePrincipal : String → Option NodeModel) (node : NodeModel)
         (newAcl : List ACE) (newNode : NodeModel),
      httpACL adminPrincipals supportedPrivileges resolvePrincipal node newAcl
        = .ok newNode →
      (∀ ace ∈ newAcl, aceCheck supportedPrivileges resolvePrincipal ace = none)
        ∧ newNode.acl = newAcl) := by
  refine ⟨?_, ?_, ?_, ?_⟩
  · intro supportedPrivileges resolvePrincipal ace h
    simp [aceCheck, h]
  · intro supportedPrivileges resolvePrincipal ace fp h habs
    simp [aceCheck, h, habs]
  · intro supportedPrivileges resolvePrincipal ace fp h habs hres
    rcases hres with hnone | ⟨principalNode, hsome, hnp⟩
    · simp [aceCheck, h, habs, hnone]
    · simp [aceCheck, h, habs, hsome, hnp]
  · intro adminPrincipals supportedPrivileges resolvePrincipal node newAcl newNode h
    rw [httpACL] at h
    cases hACL : node.isACL with
    | false => rw [hACL] at h; exact Except.noConfusion h
    | true =>
        rw [hACL] at h
        simp only [Bool.not_true, Bool.false_eq_true, if_false] at h
        cases hpp : protectedPreserved (node.acl ++ adminPrincipals.map adminAce) newAcl with
        | false => rw [hpp] at h; exact Except.noConfusion h
        | true =>
            rw [hpp] at h
            simp only [Bool.not_true, Bool.false_eq_true, if_false] at h
            cases hca : checkAces supportedPrivileges resolvePrincipal newAcl with
            | some e => rw [hca] at h; exact Except.noConfusion h
            | none =>
                rw [hca] at h
                have hnode := Except.ok.inj h
                refine ⟨checkAces_eq_none hca, ?_⟩
                rw [← hnode]

/-- Witness for C9: an entry granting a privilege absent from an (empty)
catalog is rejected as NotSupportedPrivilege. -/
theorem c9_ace_validation_witness :
    aceCheck [] (fun _ => none)
      { principal := "principals/bob", privilege := "{DAV:}write", isProtected := false }
      = some (.notSupportedPrivilege "{DAV:}write") :=
  c9_ace_validation.1 [] (fun _ => none)
    { principal := "principals/bob", privilege := "{DAV:}write", isProtected := false }
    rfl

/-- C10: in `beforeMethod`, any failure of the node lookup — whatever the
error — makes every per-method privilege check be skipped and the pipeline
continue; when the lookup succeeds the per-method checks are exactly: read
for GET/HEAD/OPTIONS, write-content for PUT/LOCK/UNLOCK, write-properties for
PROPPATCH, write-acl for ACL, and recursive read for COPY/MOVE. -/
theorem c10_lookup_failure_skips_checks :
    (∀ (e : JsErr) (method uri : String),
      beforeMethod (.error e) method uri = .next)
    ∧ (∀ (node : NodeModel) (uri : String),
      beforeMethod (.ok node) "GET" uri = .check uri ["{DAV:}read"] none
      ∧ beforeMethod (.ok node) "HEAD" uri = .check uri ["{DAV:}read"] none
      ∧ beforeMethod (.ok node) "OPTIONS" uri = .check uri ["{DAV:}read"] none
      ∧ beforeMethod (.ok node) "PUT" uri = .check uri ["{DAV:}write-content"] none
      ∧ beforeMethod (.ok node) "LOCK" uri = .check uri ["{DAV:}write-content"] none
      ∧ beforeMethod (.ok node) "UNLOCK" uri = .check uri ["{DAV:}write-content"] none
      ∧ beforeMethod (.ok node) "PROPPATCH" uri = .check uri ["{DAV:}write-properties"] none
      ∧ beforeMethod (.ok node) "ACL" uri = .check uri ["{DAV:}write-acl"] none
      ∧ beforeMethod (.ok node) "COPY" uri = .check uri ["{DAV:}read"] (some R_RECURSIVE)
      ∧ beforeMethod (.ok node) "MOVE" uri = .check uri ["{DAV:}read"] (some R_RECURSIVE)) := by
  refine ⟨fun e method uri => rfl, fun node uri => ?_⟩
  refine ⟨rfl, rfl, rfl, rfl, rfl, rfl, rfl, rfl, rfl, rfl⟩

/-
Auxiliary development: the aggregate-expansion loop of
`getCurrentUserPrivilegeSet` (plugin.js lines 586-598), embedded above as
`expandAggregates`, is verified here on its own.  In the source the loop is
unreachable — `getFlatPrivilegeSet` never delivers the catalog it needs (see
C4/C6) — but the loop itself does implement the aggregation closure the spec
describes: whenever it completes on a key-consistent catalog, the set it
produces is duplicate-free and closed under the catalog's aggregation.
-/
/-- Membership in `makeUnique` is membership in the original list. -/
theorem makeUnique_mem : ∀ (l : List String) (x : String),
    x ∈ makeUnique l ↔ x ∈ l := by
  intro l
  induction l with
  | nil => intro x; simp [makeUnique]
  | cons y ys ih =>
      intro x
      simp only [makeUnique]
      split
      · next hy =>
          rw [ih x, List.mem_cons]
          constructor
          · exact fun hx => Or.inr hx
          · intro hx
            rcases hx with rfl | hx
            · exact (ih _).mp hy
            · exact hx
      · next hy =>
          rw [List.mem_cons, ih x, List.mem_cons]

/-- `makeUnique` produces a duplicate-free list. -/
theorem makeUnique_nodup : ∀ l : List String, (makeUnique l).Nodup := by
  intro l
  induction l with
  | nil => simp [makeUnique]
  | cons y ys ih =>
      simp only [makeUnique]
      split
      · exact ih
      · next hy => exact List.nodup_cons.mpr ⟨hy, ih⟩

/-- A table whose every entry names its own key is key-consistent. -/
theorem lookupFlat_privilege_eq {flat : FlatTable}
    (h : ∀ e ∈ flat, e.2.privilege = e.1) : FlatTableConsistent flat := by
  intro k fp hl
  rw [lookupFlat] at hl
  cases hfind : flat.find? (fun p => p.1 == k) with
  | none => rw [hfind] at hl; exact Option.noConfusion hl
  | some e =>
      rw [hfind] at hl
      have hpe := List.find?_some hfind
      have hek : e.1 = k := by simpa using hpe
      have hmem : e ∈ flat := List.mem_of_find?_eq_some hfind
      have hfp : e.2 = fp := Option.some.inj hl
      rw [← hfp, h e hmem]
      exact hek

/-- Invariants of the expansion loop on a key-consistent catalog, for any run
that finishes: the result is duplicate-free; everything already collected is
in the result; every privilege name pending on the stack is in the result
with all its aggregates; and everything in the result either has all its
aggregates in the result or was in the initial accumulator. -/
theorem expandAggregates_spec (flat : FlatTable) (hcons : FlatTableConsistent flat) :
    ∀ (fuel : Nat) (stack : List (Option String)) (acc S : List String),
      expandAggregates flat fuel stack acc = .ok S →
      S.Nodup
      ∧ (∀ x ∈ acc, x ∈ S)
      ∧ (∀ x, some x ∈ stack →
          x ∈ S ∧ ∀ fp, lookupFlat flat x = some fp → ∀ s ∈ fp.aggregates, s ∈ S)
      ∧ (∀ p ∈ S,
          (∀ fp, lookupFlat flat p = some fp → ∀ s ∈ fp.aggregates, s ∈ S)
            ∨ p ∈ acc) := by
  intro fuel
  induction fuel with
  | zero =>
      intro stack acc S h
      cases stack with
      | nil =>
          have hS : makeUnique acc = S := Except.ok.inj h
          subst hS
          refine ⟨makeUnique_nodup acc, ?_, ?_, ?_⟩
          · intro x hx; exact (makeUnique_mem acc x).mpr hx
          · intro x hx; exact absurd hx (List.not_mem_nil _)
          · intro p hp; exact Or.inr ((makeUnique_mem acc p).mp hp)
      | cons hd tl => exact Except.noConfusion h
  | succ f ih =>
      intro stack acc S h
      cases stack with
      | nil =>
          have hS : makeUnique acc = S := Except.ok.inj h
          subst hS
          refine ⟨makeUnique_nodup acc, ?_, ?_, ?_⟩
          · intro x hx; exact (makeUnique_mem acc x).mpr hx
          · intro x hx; exact absurd hx (List.not_mem_nil _)
          · intro p hp; exact Or.inr ((makeUnique_mem acc p).mp hp)
      | cons hd rest =>
          cases hd with
          | none => exact Except.noConfusion h
          | some p =>
              have heq : expandAggregates flat (f + 1) (some p :: rest) acc
                  = match lookupFlat flat p with
                    | none => .error .typeError
                    | some fp =>
                        expandAggregates flat f
                          ((fp.aggregates.reverse.map
                              (fun s => (lookupFlat flat s).map (fun e => e.privilege)))
                            ++ rest)
                          (acc ++ p :: fp.aggregates) := rfl
              rw [heq] at h
              cases hlook : lookupFlat flat p with
              | none => rw [hlook] at h; exact Except.noConfusion h
              | some fp =>
                  rw [hlook] at h
                  have h' : expandAggregates flat f
                      ((fp.aggregates.reverse.map
                          (fun s => (lookupFlat flat s).map (fun e => e.privilege)))
                        ++ rest)
                      (acc ++ p :: fp.aggregates) = .ok S := h
                  obtain ⟨hnodup, hacc, hstack, hS⟩ := ih _ _ _ h'
                  refine ⟨hnodup, ?_, ?_, ?_⟩
                  · intro x hx
                    exact hacc x (List.mem_append_left _ hx)
                  · intro x hx
                    rcases List.mem_cons.mp hx with hxp | hxrest
                    · have hxp' : x = p := Option.some.inj hxp
                      subst hxp'
                      constructor
                      · exact hacc x (List.mem_append_right _ (List.mem_cons_self _ _))
                      · intro fp' hfp' s hs
                        rw [hlook] at hfp'
                        have hfp'' : fp' = fp := (Option.some.inj hfp').symm
                        subst hfp''
                        exact hacc s
                          (List.mem_append_right _ (List.mem_cons_of_mem _ hs))
                    · exact hstack x (List.mem_append_right _ hxrest)
                  · intro q hq
                    rcases hS q hq with hclo | hqacc
                    · exact Or.inl hclo
                    · rcases List.mem_append.mp hqacc with hqa | hqtail
                      · exact Or.inr hqa
                      · rcases List.mem_cons.mp hqtail with rfl | hqagg
                        · refine Or.inl ?_
                          intro fp' hfp' s hs
                          rw [hlook] at hfp'
                          have hfp'' : fp' = fp := (Option.some.inj hfp').symm
                          subst hfp''
                          exact hacc s
                            (List.mem_append_right _ (List.mem_cons_of_mem _ hs))
                        · refine Or.inl ?_
                          intro fp' hfp' s hs
                          have hq' : fp'.privilege = q := hcons q fp' hfp'
                          have hpush : (some q : Option String)
                              ∈ fp.aggregates.reverse.map
                                  (fun s => (lookupFlat flat s).map (fun e => e.privilege)) := by
                            have hval : (lookupFlat flat q).map (fun e => e.privilege)
                                = some q := by
                              rw [hfp']
                              simp [hq']
                            rw [← hval]
                            exact List.mem_map_of_mem _ (List.mem_reverse.mpr hqagg)
                          have hobl := hstack q (List.mem_append_left _ hpush)
                          exact hobl.2 fp' hfp' s hs

/-- Whenever the expansion loop completes starting from an empty accumulator
(as `getCurrentUserPrivilegeSet` would start it) on a key-consistent catalog,
the resulting privilege set is duplicate-free and closed under the catalog's
aggregation — exactly the property the spec demands of the effective set. -/
theorem expandAggregates_closure (flat : FlatTable) (hcons : FlatTableConsistent flat)
    (fuel : Nat) (stack : List (Option String)) (S : List String)
    (h : expandAggregates flat fuel stack [] = .ok S) :
    S.Nodup ∧ ∀ p ∈ S, ∀ fp, lookupFlat flat p = some fp →
      ∀ s ∈ fp.aggregates, s ∈ S := by
  obtain ⟨hnodup, _, _, hS⟩ := expandAggregates_spec flat hcons fuel stack [] S h
  refine ⟨hnodup, ?_⟩
  intro p hp fp hfp s hs
  rcases hS p hp with hclo | hacc
  · exact hclo fp hfp s hs
  · exact absurd hacc (List.not_mem_nil p)

/-- The default table is key-consistent. -/
theorem defaultFlatTable_consistent : FlatTableConsistent defaultFlatTable :=
  lookupFlat_privilege_eq (by decide)

/-- Run on the spec's worked example (matched privileges `{DAV:}write` and
`{DAV:}read`, the write entry popped first) against the default catalog, the
expansion loop computes exactly the ten-privilege effective set the spec
expects for alice on `/doc.txt`. -/
theorem expandAggregates_doc_example :
    expandAggregates defaultFlatTable 50 [some "{DAV:}read", some "{DAV:}write"] []
      = .ok [ "{DAV:}read", "{DAV:}read-current-user-privilege-set", "{DAV:}read-acl"
            , "{DAV:}write", "{DAV:}unlock", "{DAV:}unbind", "{DAV:}bind"
            , "{DAV:}write-content", "{DAV:}write-properties", "{DAV:}write-acl" ] := by
  rfl
